import Mathlib

/-!
Verification of the economic-dashboard acquisition-and-analysis core.

Shallow embedding of the Python services under `src/backend/app`:
* `FREDService` (rate limiter, retry loop, cache, upsert storage)
  from `app/services/fred_service.py`,
* `IncrementalUpdateService` from `app/services/incremental_update_service.py`,
* `MetricAnalysisService` from `app/services/metric_analysis_service.py`,
* `DataQualityService` from `app/services/data_quality_service.py`.

Conventions of the embedding:
* Python `float` quantities are modelled as rational numbers (`ℚ`);
  the standard deviation, which needs a square root, lives in `ℝ`.
* `datetime` values are rationals measured in days, so
  `timedelta(days=n)` is the rational `n` and `.total_seconds()/3600`
  is multiplication by `24`.
* The relational store is modelled per table: the FRED table as a map
  from its unique key `(series_id, date)` to the remaining columns, the
  metric table as a list of rows.
* Fallible paths return `Option`/`Except`; a raised `FREDAPIError` is the
  `Except.error` case carrying the same `message`/`status_code` payload.
-/

namespace EconDash

/-! ### Data model: `FredDataPoint` (app/models/fred_data.py, lines 16-96)

The table `fred_data_points` has the unique constraint
`uix_fred_series_date` on `(series_id, date)`; the store is therefore a
map from that key to the remaining columns written by the service. -/

/-- One incoming data-point dict as built by `fetch_current_values`
(fred_service.py lines 515-522), with `date` and `fetched_at` already
parsed (`_store_data_points` parses them with `strptime`/`fromisoformat`
at lines 727-728; a point whose strings do not parse is skipped, which
does not occur for the well-formed dicts the service itself builds). -/
structure FredPoint where
  series_id : String
  series_name : String
  value : ℚ
  unit : String
  date : ℚ
  fetched_at : ℚ
deriving DecidableEq, Repr

/-- The non-key columns of one `fred_data_points` row. -/
structure FredRow where
  series_name : String
  value : ℚ
  unit : String
  fetched_at : ℚ
deriving DecidableEq, Repr

/-- The `fred_data_points` table, keyed by its unique constraint. -/
def FredStore : Type := String × ℚ → Option FredRow

/-- One upsert statement of `_store_data_points` (fred_service.py lines
731-751): `insert ... on_conflict_do_update` on `uix_fred_series_date`,
updating `value`, `fetched_at`, `series_name` and `unit` from the
excluded (incoming) row. -/
def upsertPoint (s : FredStore) (p : FredPoint) : FredStore :=
  fun k =>
    if k = (p.series_id, p.date) then
      some ⟨p.series_name, p.value, p.unit, p.fetched_at⟩
    else s k

/-- `FREDService._store_data_points` (fred_service.py lines 707-760):
executes one upsert per point, counting each processed point, then
commits; returns the store after commit and `stored_count`. -/
def storeDataPoints (s : FredStore) (batch : List FredPoint) :
    FredStore × Nat :=
  batch.foldl (fun acc p => (upsertPoint acc.1 p, acc.2 + 1)) (s, 0)

/-- The last point of a batch that targets the key `k` (the one whose
values the upsert loop leaves in the row for `k`). -/
def lastFor (batch : List FredPoint) (k : String × ℚ) : Option FredPoint :=
  batch.foldl (fun acc p => if (p.series_id, p.date) = k then some p else acc)
    none

/-! ### `FREDAPIError` and the retry loop
(fred_service.py lines 56-63 and 294-449) -/

/-- The `FREDAPIError` exception payload (fred_service.py lines 56-63);
`response_data` is elided, the fields the claims speak about are kept. -/
structure FREDAPIError where
  message : String
  status_code : Option Nat
deriving DecidableEq, Repr

/-- The body of an HTTP 200 reply as seen by `_make_request_with_retry`:
either the JSON fails to decode (line 431), or a JSON object whose
optional `error_code`/`error_message` marks a FRED-level error (line
390); `payload` stands for the decoded observations document. -/
inductive RespBody where
  | invalidJson : RespBody
  | obj (errorMessage : Option String) (payload : String) : RespBody
deriving DecidableEq, Repr

/-- What one attempt of the HTTP client can produce: a status code with
a body, a timeout (`httpx.TimeoutException`, line 401), or another
transport error (`httpx.HTTPError`, line 416). -/
inductive UpstreamResp where
  | http (code : Nat) (body : RespBody)
  | timeout
  | netError (msg : String)
deriving DecidableEq, Repr

/-- The body of the `for attempt in range(max_retries + 1)` loop of
`_make_request_with_retry` (fred_service.py lines 323-444), applied to
the response of attempt number `attempt` (`resp attempt`).  Returns the
outcome together with the number of HTTP request attempts performed from
this iteration on.  Branches in source order: 429 retried with backoff
(336-349), 5xx retried (352-365), other 4xx raised immediately (368-377),
non-200 raised (380-384), JSON decode failure raised (431-435), FRED
`error_code` raised (390-396), success returned (398-399); timeouts and
transport errors retried (401-429).  The `asyncio.sleep` backoff and the
rate-limiter acquisition before each attempt do not change the
outcome/attempt count and are not modelled. -/
def retryAux (resp : Nat → UpstreamResp) (maxRetries : Nat) (attempt : Nat) :
    Except FREDAPIError String × Nat :=
  let retryOr (terminal : FREDAPIError) : Except FREDAPIError String × Nat :=
    if h : attempt < maxRetries then
      let r := retryAux resp maxRetries (attempt + 1)
      (r.1, r.2 + 1)
    else
      (Except.error terminal, 1)
  match resp attempt with
  | UpstreamResp.timeout =>
      retryOr ⟨"Request to FRED API timed out after " ++ toString maxRetries
                ++ " retries", some 408⟩
  | UpstreamResp.netError m =>
      retryOr ⟨"HTTP error communicating with FRED API: " ++ m, none⟩
  | UpstreamResp.http code body =>
      if code = 429 then
        retryOr ⟨"Rate limited by FRED API after all retries", some 429⟩
      else if 500 ≤ code ∧ code < 600 then
        retryOr ⟨"FRED API server error after all retries: " ++ toString code,
                 some code⟩
      else if 400 ≤ code ∧ code < 500 then
        (Except.error ⟨"FRED API request failed", some code⟩, 1)
      else if code ≠ 200 then
        (Except.error ⟨"FRED API returned unexpected status: " ++ toString code,
                       some code⟩, 1)
      else
        match body with
        | RespBody.invalidJson =>
            (Except.error ⟨"Invalid JSON response from FRED API", none⟩, 1)
        | RespBody.obj (some em) _ =>
            (Except.error ⟨em, some code⟩, 1)
        | RespBody.obj none payload =>
            (Except.ok payload, 1)
termination_by maxRetries - attempt
decreasing_by omega

/-- `FREDService._make_request_with_retry` (fred_service.py lines
294-449): run the attempt loop from attempt 0; the result is the value
returned or the `FREDAPIError` raised, paired with the total number of
HTTP request attempts made. -/
def makeRequestWithRetry (resp : Nat → UpstreamResp) (maxRetries : Nat := 3) :
    Except FREDAPIError String × Nat :=
  retryAux resp maxRetries 0

/-! ### `RateLimiter` (fred_service.py lines 66-120)

`acquire()` holds a lock, reads `now = time.time()`, prunes the stored
request timestamps to those with `now - t < window_seconds`, and if at
least `max_requests` remain it sleeps and retries, otherwise it appends
`now`.  A run of the limiter is abstracted as the ordered list of times
at which acquisitions completed (appended their timestamp); any sleeping
between them is absorbed into the gaps between those times. -/

/-- The pruning of line 97-98: keep the timestamps still inside the
trailing window at time `now`. -/
def prune (W now : ℚ) (reqs : List ℚ) : List ℚ :=
  reqs.filter (fun t => decide (now - t < W))

/-- One completed acquisition at time `t`: prune, then append (lines
97-117). -/
def rlStep (W : ℚ) (s : List ℚ) (t : ℚ) : List ℚ :=
  prune W t s ++ [t]

/-- The timestamp list after a run of completed acquisitions at the
given times, starting from the empty list of `__init__` (line 84). -/
def runRL (W : ℚ) (ts : List ℚ) : List ℚ :=
  ts.foldl (rlStep W) []

/-- A list of completion times is admissible for limits `(N, W)` when
every acquisition passed the check of line 101: after pruning at its
completion time, strictly fewer than `N` timestamps remained (otherwise
`acquire` would have slept and retried instead of appending). -/
def rlAdmissible (N : Nat) (W : ℚ) : List ℚ → List ℚ → Bool
  | _, [] => true
  | s, t :: ts =>
      decide ((prune W t s).length < N) && rlAdmissible N W (rlStep W s t) ts

/-! ### `IncrementalUpdateService` (incremental_update_service.py)

Rows of the `metric_data_points` table (app/models/metric_data_point.py)
for the write path: `metric_code`, `source`, `date`, `value`. -/

/-- One `metric_data_points` row as written by
`update_metric_since_last` (incremental_update_service.py lines 89-94). -/
structure StoredRow where
  metric_code : String
  source : String
  date : ℚ
  value : ℚ
deriving DecidableEq, Repr

/-- One entry of the `data` list returned by `fetch_historical`
(fred_service.py lines 620-624), its `date` string already parsed
(`update_metric_since_last` parses it with `strptime` at lines 74/92). -/
structure Obs where
  date : ℚ
  value : ℚ
deriving DecidableEq, Repr

/-- The arguments `update_metric_since_last` passes to
`FREDService.fetch_historical` besides the series code: optional
`start_date`, optional `end_date`, and `use_cache` (fred_service.py
lines 541-547). -/
structure FetchReq where
  startDate : Option ℚ
  endDate : Option ℚ
  useCache : Bool
deriving DecidableEq, Repr

/-- The part of the `fetch_historical` result `update_metric_since_last`
consumes: the `data` list. -/
structure FetchRes where
  data : List Obs
deriving DecidableEq, Repr

/-- `status` of an update result dict. -/
inductive UpdStatus where
  | success
  | error
deriving DecidableEq, Repr

/-- The outcome of `update_metric_since_last`: the result dict's
`status` and `count`, the metric's table rows after commit, and the
request that was issued to `fetch_historical` (recorded so that claims
about the requested window can be stated). -/
structure UpdResult where
  status : UpdStatus
  count : Nat
  rows : List StoredRow
  request : FetchReq
deriving DecidableEq, Repr

/-- The maximum of a list of rationals (none for the empty list). -/
def maxQ : List ℚ → Option ℚ
  | [] => none
  | d :: ds =>
      some (match maxQ ds with
            | none => d
            | some m => max d m)

/-- `IncrementalUpdateService._get_last_date` (lines 153-175): the
`date` of the row with the greatest date for the metric
(`order_by(desc(date)).limit(1)`), i.e. the maximum stored date, or
`none` when the metric has no rows. -/
def getLastDate (rows : List StoredRow) (code : String) : Option ℚ :=
  maxQ ((rows.filter (fun r => decide (r.metric_code = code))).map
    (fun r => r.date))

/-- `IncrementalUpdateService.update_metric_since_last`
(incremental_update_service.py lines 37-120) over the table rows `rows`
at current time `now` (days), with the upstream modelled by `fetch`:
compute `last_date` (defaulting to `now` minus 365 days, line 53); call
`fetch_historical(series_id=metric_code, use_cache=False)` — the
source passes no `start_date`/`end_date` (lines 58-61); error out when
no data came back (lines 63-68); keep only points dated strictly after
`last_date` (lines 72-75); report success with count 0 when nothing is
new (lines 77-83); otherwise insert each new point (`db.add`, lines
87-97), commit and report the stored count (lines 103-111). -/
def updateMetricSinceLast (now : ℚ) (code : String) (rows : List StoredRow)
    (fetch : FetchReq → FetchRes) : UpdResult :=
  let lastDate := (getLastDate rows code).getD (now - 365)
  let req : FetchReq := ⟨none, none, false⟩
  let result := fetch req
  if result.data = [] then
    ⟨UpdStatus.error, 0, rows, req⟩
  else
    let newData := result.data.filter (fun p => decide (lastDate < p.date))
    if newData = [] then
      ⟨UpdStatus.success, 0, rows, req⟩
    else
      ⟨UpdStatus.success, newData.length,
       rows ++ newData.map (fun p => ⟨code, "FRED", p.date, p.value⟩), req⟩

/-! ### Observation filtering (fred_service.py lines 498-527, 610-635)

The upstream payload is an `observations` array of objects with a `date`
string and a `value` that is a string or absent; the sentinel `"."`
marks a missing observation.  `float(value_str)` is modelled by
`parseFloat` below. -/

/-- One raw upstream observation: `obs.get("date")` and
`obs.get("value")` (absent value modelled as `none`, which is how
`obs.get` returns `None`). -/
structure RawObs where
  date : String
  value : Option String
deriving DecidableEq, Repr

/-- One processed observation of the `data` list built at lines 620-624,
the `value` parsed to a number. -/
structure ProcObs where
  date : String
  value : ℚ
deriving DecidableEq, Repr

/-- Value of a digit character. -/
def digitVal (c : Char) : Nat := c.toNat - '0'.toNat

/-- The natural number denoted by a list of digit characters. -/
def digitsVal (cs : List Char) : Nat :=
  cs.foldl (fun n c => n * 10 + digitVal c) 0

/-- The exponent tail of a float literal: `e`/`E`, an optional sign and
at least one digit, ending the string. -/
def parseExpTail (cs : List Char) : Option Int :=
  match cs with
  | [] => some 0
  | e :: rest =>
      if e = 'e' ∨ e = 'E' then
        let signed : Int × List Char :=
          match rest with
          | '+' :: r => (1, r)
          | '-' :: r => (-1, r)
          | r => (1, r)
        let ds := signed.2.takeWhile Char.isDigit
        let tail := signed.2.dropWhile Char.isDigit
        if ds = [] ∨ tail ≠ [] then none
        else some (signed.1 * (digitsVal ds : Int))
      else none

/-- Python `float(s)` on its decimal forms, as used on the payload value
strings (fred_service.py lines 510, 620): optional surrounding spaces,
an optional sign, then digits with an optional fractional part (at
least one digit overall) and an optional exponent; any other string
raises `ValueError`, i.e. parses to `none`.  (The special forms
`inf`/`nan`, which FRED never sends, are not modelled.) -/
def parseFloat (s : String) : Option ℚ :=
  let cs := (s.toList.dropWhile (fun c => c = ' ')).reverse
    |>.dropWhile (fun c => c = ' ') |>.reverse
  let signAndRest : ℚ × List Char :=
    match cs with
    | '+' :: r => (1, r)
    | '-' :: r => (-1, r)
    | r => (1, r)
  let intDigits := signAndRest.2.takeWhile Char.isDigit
  let afterInt := signAndRest.2.dropWhile Char.isDigit
  match afterInt with
  | '.' :: afterDot =>
      let fracDigits := afterDot.takeWhile Char.isDigit
      let afterFrac := afterDot.dropWhile Char.isDigit
      if intDigits = [] ∧ fracDigits = [] then none
      else
        match parseExpTail afterFrac with
        | none => none
        | some e =>
            some (signAndRest.1 *
              ((digitsVal intDigits : ℚ) +
                (digitsVal fracDigits : ℚ) / (10 : ℚ) ^ fracDigits.length) *
              (10 : ℚ) ^ e)
  | _ =>
      if intDigits = [] then none
      else
        match parseExpTail afterInt with
        | none => none
        | some e =>
            some (signAndRest.1 * (digitsVal intDigits : ℚ) * (10 : ℚ) ^ e)

/-- The observation-processing loop of `fetch_historical`
(fred_service.py lines 611-627): skip an observation whose value is the
sentinel `"."` or absent, skip one whose value string does not parse as
a float (`ValueError`), and otherwise emit its date with the parsed
value. -/
def processObservations : List RawObs → List ProcObs
  | [] => []
  | o :: rest =>
      match o.value with
      | none => processObservations rest
      | some s =>
          if s = "." then processObservations rest
          else
            match parseFloat s with
            | none => processObservations rest
            | some v => ⟨o.date, v⟩ :: processObservations rest

/-- The per-series extraction of `fetch_current_values` (fred_service.py
lines 498-523): look only at the first returned observation; skip the
series when there is none, when its value is `"."` or absent, or when
the value string does not parse; otherwise return the date with the
parsed value. -/
def currentValueFrom (obs : List RawObs) : Option ProcObs :=
  match obs with
  | [] => none
  | o :: _ =>
      match o.value with
      | none => none
      | some s =>
          if s = "." then none
          else (parseFloat s).map (fun v => ⟨o.date, v⟩)

/-! ### `fetch_historical` with the cache (fred_service.py lines
209-241, 541-644)

For one fixed series and date range (one cache key) the Redis backend
is, from `_get_from_cache`'s point of view, one of: absent
(`self.redis is None`, line 219), raising `RedisError` (caught at line
236), or reachable and holding either nothing or a cached payload with
a remaining TTL. -/

/-- The `_cache_metadata` annotation added on a cache hit (lines
229-233): the `cached` flag and `cache_expires_in`. -/
structure CacheMeta where
  cached : Bool
  cacheExpiresIn : Int
deriving DecidableEq, Repr

/-- The result dict of `fetch_historical` (lines 630-636), the optional
`_cache_metadata` key made explicit. -/
structure HistResult where
  series_id : String
  series_name : String
  unit : String
  data : List ProcObs
  count : Nat
  cacheMeta : Option CacheMeta
deriving DecidableEq, Repr

/-- State of the Redis backend for the one cache key in play. -/
inductive CacheBackend where
  | disabled
  | erroring
  | working (val : Option HistResult) (ttl : Int)
deriving DecidableEq, Repr

/-- `FREDService._get_from_cache` (lines 209-241): `None` when Redis is
absent, on a backend error (treated as a miss), or on a miss; on a hit,
the cached payload with `_cache_metadata` added (`cache_expires_in` is
the remaining TTL clamped at 0, line 232). -/
def getFromCache (cache : CacheBackend) : Option HistResult :=
  match cache with
  | CacheBackend.disabled => none
  | CacheBackend.erroring => none
  | CacheBackend.working none _ => none
  | CacheBackend.working (some d) ttl =>
      some { d with cacheMeta := some ⟨true, if ttl > 0 then ttl else 0⟩ }

/-- The result `fetch_historical` builds directly from the upstream
payload (lines 606-636), with no cache annotation. -/
def directHistResult (sid name unit : String) (obs : List RawObs) :
    HistResult :=
  let pd := processObservations obs
  ⟨sid, name, unit, pd, pd.length, none⟩

/-- `FREDService.fetch_historical` (lines 541-644) for a valid series
with metadata `(name, unit)` and a fixed upstream payload `obs`: with
`use_cache` a cache hit is returned as-is (lines 590-593), otherwise
the result is fetched and processed directly (the write-back to the
cache at lines 639-640 does not change the returned value and is not
modelled). -/
def fetchHistorical (cache : CacheBackend) (useCache : Bool)
    (sid name unit : String) (obs : List RawObs) : HistResult :=
  if useCache then
    match getFromCache cache with
    | some d => d
    | none => directHistResult sid name unit obs
  else directHistResult sid name unit obs

/-- Erase the `_cache_metadata` annotation of a result. -/
def stripMeta (r : HistResult) : HistResult :=
  { r with cacheMeta := none }

/-! ### `MetricAnalysisService.assess_significance`
(metric_analysis_service.py lines 147-200)

Values are rationals; `np.std` needs a square root and lives in `ℝ`.
The dict the method returns applies display rounding (`round(·, 2)` /
`round(·, 1)`, lines 194-199) to the computed quantities; the embedding
exposes the computed quantities themselves, and `is_outlier` is taken,
as in the source (line 185), from the unrounded z-score. -/

/-- A historical data point `{"date": datetime, "value": float}`. -/
structure HPoint where
  date : ℚ
  value : ℚ
deriving DecidableEq, Repr

/-- `np.mean` of a list of values. -/
def qMean (l : List ℚ) : ℚ := l.sum / l.length

/-- The population variance, i.e. `np.std(values) ** 2`. -/
def popVar (l : List ℚ) : ℚ :=
  ((l.map (fun x => (x - qMean l) ^ 2)).sum) / l.length

/-- `np.std(values)`: the square root of the population variance. -/
noncomputable def popStd (l : List ℚ) : ℝ :=
  Real.sqrt ((popVar l : ℚ) : ℝ)

/-- `MetricAnalysisService._calculate_average` (lines 402-427): the mean
of the values dated within `days` of the most recent historical date,
`none` when there is no data (the sort at line 188 only fixes
`sorted_data[0]`, whose date is the maximum date). -/
def calcAverage (hist : List HPoint) (days : ℚ) : Option ℚ :=
  match maxQ (hist.map (fun p => p.date)) with
  | none => none
  | some md =>
      let recent := (hist.filter (fun p => decide (md - days ≤ p.date))).map
        (fun p => p.value)
      if recent = [] then none else some (qMean recent)

/-- The Python truthiness fallback `round(avg, 2) if avg else current`
(lines 197-199) without the display rounding: `current` when the
average is `None` or `0.0`. -/
def avgOrCurrent (a : Option ℚ) (current : ℚ) : ℚ :=
  match a with
  | none => current
  | some v => if v = 0 then current else v

/-- The quantities `assess_significance` computes (lines 162-200);
`is_outlier` is a proposition because it compares the real-valued
z-score with 2. -/
structure SignifOut where
  z_score : ℝ
  percentile : ℚ
  is_outlier : Prop
  avg_30d : ℚ
  avg_90d : ℚ
  avg_1y : ℚ

/-- `MetricAnalysisService.assess_significance` (lines 147-200): with
fewer than two historical points, the defaults of lines 162-170
(z-score 0, percentile 50, no outlier, averages equal to the current
value); otherwise the population z-score (0 when the standard deviation
is 0, line 179), the percentile rank of line 182, the outlier flag
`|z| > 2` of line 185, and the 30/90/365-day rolling averages. -/
noncomputable def assessSignificance (current : ℚ) (hist : List HPoint) :
    SignifOut :=
  if hist.length < 2 then
    ⟨0, 50, False, current, current, current⟩
  else
    let vals := hist.map (fun p => p.value)
    let m := qMean vals
    let std := popStd vals
    let z : ℝ := if 0 < std then ((current : ℝ) - (m : ℝ)) / std else 0
    let pct : ℚ := ((vals.countP (fun x => decide (x ≤ current))) : ℚ) /
      (vals.length : ℚ) * 100
    ⟨z, pct, |z| > 2,
     avgOrCurrent (calcAverage hist 30) current,
     avgOrCurrent (calcAverage hist 90) current,
     avgOrCurrent (calcAverage hist 365) current⟩

/-! ### `DataQualityService.check_metric_freshness`
(data_quality_service.py lines 36-82) -/

/-- Python `round(x)` (banker's rounding, ties to the even integer). -/
def pyRound (x : ℚ) : ℤ :=
  let f := ⌊x⌋
  let r := x - (f : ℚ)
  if r < 1 / 2 then f
  else if 1 / 2 < r then f + 1
  else if Even f then f else f + 1

/-- Python `round(x, k)`: round to `k` decimal places. -/
def roundDp (k : Nat) (x : ℚ) : ℚ :=
  ((pyRound (x * (10 : ℚ) ^ k) : ℚ)) / (10 : ℚ) ^ k

/-- The columns of a `metric_data_points` row the freshness check reads:
`date` and `created_at` (both as rational days). -/
structure QRow where
  date : ℚ
  created_at : ℚ
deriving DecidableEq, Repr

/-- The `order_by(date.desc()).limit(1)` query of lines 47-55: the row
with the greatest `date` (unique per metric by `uix_metric_date`; on a
tie the first row is kept). -/
def latestByDate : List QRow → Option QRow
  | [] => none
  | r :: rs =>
      match latestByDate rs with
      | none => some r
      | some m => some (if r.date < m.date then m else r)

/-- The result dict of `check_metric_freshness`; absent keys are
`none`. -/
structure FreshResult where
  metric_code : String
  status : String
  message : Option String
  last_date : Option ℚ
  last_updated : Option ℚ
  age_hours : Option ℚ
deriving DecidableEq, Repr

/-- `DataQualityService.check_metric_freshness` (data_quality_service.py
lines 36-82) at current time `now` (days): with no row for the metric,
status `"error"` with message `"No data found"` (lines 57-62);
otherwise the age is `now` minus the `created_at` of the latest-dated
row, the status is `"stale"` when that age exceeds 7 days else
`"fresh"`, and `age_hours` is the age in hours rounded to 2 decimals
(lines 64-74). -/
def checkMetricFreshness (now : ℚ) (code : String) (rows : List QRow) :
    FreshResult :=
  match latestByDate rows with
  | none => ⟨code, "error", some "No data found", none, none, none⟩
  | some latest =>
      let age := now - latest.created_at
      let isStale := decide (7 < age)
      ⟨code, if isStale then "stale" else "fresh", none,
       some latest.date, some latest.created_at,
       some (roundDp 2 (age * 24))⟩

/-! ### `MetricAnalysisService.analyze_metric`
(metric_analysis_service.py lines 27-99)

The method runs four sub-computations inside a `try`; any exception
from any of them is caught and replaced by a degraded result that
echoes the inputs.  The sub-computations are modelled as `Except`
outcomes (and their payload types kept abstract), matching the claim's
quantification over "any sub-computation raises". -/

/-- The result dict of `analyze_metric`: the echoed inputs, `changes`
and `significance` (`none` models the empty dict `{}` of the degraded
path), `alerts` and `context`. -/
structure AnalysisOut (χ σ : Type) where
  metric_code : String
  current_value : ℚ
  current_date : ℚ
  changes : Option χ
  significance : Option σ
  alerts : List String
  context : String

/-- `MetricAnalysisService.analyze_metric` (lines 27-99): sequence
`calculate_changes`, `assess_significance`, `generate_alerts`,
`generate_context`; on success assemble the full dict (lines 79-87), on
any raised exception return the degraded dict of lines 89-99 with empty
changes, empty significance, no alerts and context
`"Analysis unavailable"`.  An exception from an earlier call skips the
later calls, but the degraded dict is the same whichever call raised. -/
def analyzeMetric {χ σ : Type} (code : String) (currentValue : ℚ)
    (currentDate : ℚ) (changesR : Except String χ) (signifR : Except String σ)
    (alertsR : Except String (List String)) (contextR : Except String String) :
    AnalysisOut χ σ :=
  match changesR, signifR, alertsR, contextR with
  | Except.ok c, Except.ok s, Except.ok a, Except.ok x =>
      ⟨code, currentValue, currentDate, some c, some s, a, x⟩
  | _, _, _, _ =>
      ⟨code, currentValue, currentDate, none, none, [], "Analysis unavailable"⟩

/-! ## Theorems -/

/-- The pair-threading fold of `storeDataPoints` splits into the store
fold and the element count. -/
theorem storeDataPoints_split (batch : List FredPoint) :
    ∀ (s : FredStore) (n : Nat),
      batch.foldl (fun acc p => (upsertPoint acc.1 p, acc.2 + 1)) (s, n)
        = (batch.foldl upsertPoint s, n + batch.length) := by
  induction batch with
  | nil => intro s n; simp
  | cons p rest ih =>
      intro s n
      simp only [List.foldl_cons, List.length_cons, ih, Prod.mk.injEq]
      exact ⟨trivial, by omega⟩

/-- Folding `lastFor`'s step from any accumulator: the result is the
last matching point, or the accumulator when none matches. -/
theorem lastFor_from (k : String × ℚ) (batch : List FredPoint) :
    ∀ acc : Option FredPoint,
      batch.foldl
          (fun a p => if (p.series_id, p.date) = k then some p else a) acc
        = match lastFor batch k with
          | some q => some q
          | none => acc := by
  induction batch with
  | nil => intro acc; rfl
  | cons p rest ih =>
      intro acc
      show rest.foldl _ (if (p.series_id, p.date) = k then some p else acc) = _
      rw [ih]
      have h2 : lastFor (p :: rest) k
          = rest.foldl
              (fun a q => if (q.series_id, q.date) = k then some q else a)
              (if (p.series_id, p.date) = k then some p else none) := rfl
      rw [h2, ih]
      cases hrest : lastFor rest k with
      | some q => rfl
      | none =>
          by_cases hp : (p.series_id, p.date) = k
          · simp [hp]
          · simp [hp]

/-- The store after the upsert fold, at key `k`: the row written by the
last batch point targeting `k`, or the prior content when no point
targets `k`. -/
theorem foldl_upsert_apply (k : String × ℚ) (batch : List FredPoint) :
    ∀ s : FredStore,
      (batch.foldl upsertPoint s) k
        = match lastFor batch k with
          | some p => some ⟨p.series_name, p.value, p.unit, p.fetched_at⟩
          | none => s k := by
  induction batch with
  | nil => intro s; rfl
  | cons p rest ih =>
      intro s
      simp only [List.foldl_cons, ih]
      have hlf : lastFor (p :: rest) k
          = match lastFor rest k with
            | some q => some q
            | none => if (p.series_id, p.date) = k then some p else none := by
        have h2 : lastFor (p :: rest) k
            = rest.foldl
                (fun a q => if (q.series_id, q.date) = k then some q else a)
                (if (p.series_id, p.date) = k then some p else none) := rfl
        rw [h2, lastFor_from k rest]
      rw [hlf]
      cases hrest : lastFor rest k with
      | some q => simp
      | none =>
          simp only [upsertPoint]
          by_cases hk : (p.series_id, p.date) = k
          · simp [hk]
          · have hk' : ¬ k = (p.series_id, p.date) := fun h => hk h.symm
            simp [hk, hk']

/-- C1: `_store_data_points` is an idempotent upsert: running the same
batch a second time leaves the store unchanged and returns the same
count, and after one run each `(series_id, date)` key holds the
`series_name`, `value`, `unit` and `fetched_at` of the last batch point
for that key. -/
theorem store_data_points_idempotent (s : FredStore)
    (batch : List FredPoint) :
    (storeDataPoints (storeDataPoints s batch).1 batch).1
      = (storeDataPoints s batch).1
    ∧ (storeDataPoints (storeDataPoints s batch).1 batch).2
      = (storeDataPoints s batch).2
    ∧ ∀ k p, lastFor batch k = some p →
        (storeDataPoints s batch).1 k
          = some ⟨p.series_name, p.value, p.unit, p.fetched_at⟩ := by
  have hsplit : ∀ t : FredStore,
      storeDataPoints t batch = (batch.foldl upsertPoint t, batch.length) := by
    intro t
    have := storeDataPoints_split batch t 0
    simpa [storeDataPoints] using this
  refine ⟨?_, ?_, ?_⟩
  · funext k
    simp only [hsplit]
    rw [foldl_upsert_apply]
    cases hlf : lastFor batch k with
    | some p =>
        simp only
        rw [foldl_upsert_apply, hlf]
    | none => simp only
  · simp only [hsplit]
  · intro k p hp
    simp only [hsplit]
    rw [foldl_upsert_apply, hp]

/-- C1 witness: a concrete batch writing the key `("DFF", 100)` twice
(values 1 then 2) into the empty store; re-running it returns the same
count, and the key holds the last value 2. -/
theorem store_data_points_idempotent_witness :
    (storeDataPoints
        (storeDataPoints (fun _ => none)
          [⟨"DFF", "Federal Funds Rate", 1, "Percent", 100, 50⟩,
           ⟨"DFF", "Federal Funds Rate", 2, "Percent", 100, 50⟩]).1
        [⟨"DFF", "Federal Funds Rate", 1, "Percent", 100, 50⟩,
         ⟨"DFF", "Federal Funds Rate", 2, "Percent", 100, 50⟩]).2
      = (storeDataPoints (fun _ => none)
          [⟨"DFF", "Federal Funds Rate", 1, "Percent", 100, 50⟩,
           ⟨"DFF", "Federal Funds Rate", 2, "Percent", 100, 50⟩]).2
    ∧ (storeDataPoints (fun _ => none)
        [⟨"DFF", "Federal Funds Rate", 1, "Percent", 100, 50⟩,
         ⟨"DFF", "Federal Funds Rate", 2, "Percent", 100, 50⟩]).1 ("DFF", 100)
      = some ⟨"Federal Funds Rate", 2, "Percent", 50⟩ := by
  refine ⟨(store_data_points_idempotent _ _).2.1, ?_⟩
  exact (store_data_points_idempotent (fun _ => none) _).2.2 ("DFF", 100)
    ⟨"DFF", "Federal Funds Rate", 2, "Percent", 100, 50⟩ (by decide)

/-- Against a client that answers 500 on every attempt, the attempt
loop started at `attempt ≤ K` performs `K + 1 - attempt` further
attempts and ends with the terminal 500 error. -/
theorem retryAux_all500 (resp : Nat → UpstreamResp) (b : RespBody)
    (h : ∀ i, resp i = UpstreamResp.http 500 b) :
    ∀ (n attempt K : Nat), K - attempt = n → attempt ≤ K →
      retryAux resp K attempt =
        (Except.error ⟨"FRED API server error after all retries: 500",
           some 500⟩, K + 1 - attempt) := by
  intro n
  induction n with
  | zero =>
      intro attempt K hn hle
      rw [retryAux, h attempt]
      dsimp only
      norm_num
      rw [if_neg (by omega : ¬ attempt < K)]
      have h1 : K + 1 - attempt = 1 := by omega
      rw [h1]
      rfl
  | succ m ih =>
      intro attempt K hn hle
      have hlt : attempt < K := by omega
      rw [retryAux, h attempt]
      dsimp only
      norm_num
      rw [if_pos hlt, ih (attempt + 1) K (by omega) (by omega)]
      simp only [Prod.mk.injEq]
      refine ⟨trivial, by omega⟩

/-- C2: retry termination.  First part: against an upstream that
returns HTTP 500 on every attempt, `_make_request_with_retry` with
retry limit `K` performs exactly `K + 1` attempts and then raises a
terminal `FREDAPIError` carrying the server status 500.  Second part:
when the first attempt returns a 4xx status other than 429, it performs
exactly 1 attempt and raises immediately with that status. -/
theorem retry_termination :
    (∀ (K : Nat) (resp : Nat → UpstreamResp) (b : RespBody),
        (∀ i, resp i = UpstreamResp.http 500 b) →
        makeRequestWithRetry resp K =
          (Except.error ⟨"FRED API server error after all retries: 500",
             some 500⟩, K + 1))
    ∧ (∀ (K : Nat) (resp : Nat → UpstreamResp) (c : Nat) (b : RespBody),
        400 ≤ c → c < 500 → c ≠ 429 →
        resp 0 = UpstreamResp.http c b →
        makeRequestWithRetry resp K =
          (Except.error ⟨"FRED API request failed", some c⟩, 1)) := by
  constructor
  · intro K resp b h
    have := retryAux_all500 resp b h K 0 K rfl (Nat.zero_le K)
    simpa [makeRequestWithRetry] using this
  · intro K resp c b h400 h500 h429 h0
    rw [makeRequestWithRetry, retryAux, h0]
    dsimp only
    rw [if_neg h429]
    rw [if_neg (by omega : ¬ (500 ≤ c ∧ c < 600))]
    rw [if_pos (by omega : 400 ≤ c ∧ c < 500)]

/-- C2 witness: a client always answering 500 and retry limit 3 gives 4
attempts and the terminal 500 error; a client answering 404 on the
first attempt gives exactly 1 attempt and the immediate 404 error. -/
theorem retry_termination_witness :
    makeRequestWithRetry (fun _ => UpstreamResp.http 500 RespBody.invalidJson) 3
      = (Except.error ⟨"FRED API server error after all retries: 500",
           some 500⟩, 4)
    ∧ makeRequestWithRetry
        (fun _ => UpstreamResp.http 404 RespBody.invalidJson) 3
      = (Except.error ⟨"FRED API request failed", some 404⟩, 1) := by
  constructor
  · exact retry_termination.1 3 _ RespBody.invalidJson (fun i => rfl)
  · exact retry_termination.2 3 _ 404 RespBody.invalidJson (by omega)
      (by omega) (by omega) rfl

/-- Filtering with a pointwise-weaker predicate keeps at least as many
elements. -/
theorem filter_length_mono {α : Type} (l : List α) (p q : α → Bool)
    (h : ∀ x ∈ l, p x = true → q x = true) :
    (l.filter p).length ≤ (l.filter q).length := by
  induction l with
  | nil => simp
  | cons x rest ih =>
      have hrest : ∀ y ∈ rest, p y = true → q y = true :=
        fun y hy => h y (List.mem_cons_of_mem x hy)
      by_cases hpx : p x = true
      · have hqx := h x (List.mem_cons_self x rest) hpx
        rw [List.filter_cons, List.filter_cons, if_pos hpx, if_pos hqx]
        simpa using Nat.succ_le_succ (ih hrest)
      · rw [List.filter_cons, if_neg hpx]
        by_cases hqx : q x = true
        · rw [List.filter_cons, if_pos hqx]
          exact Nat.le_succ_of_le (ih hrest)
        · rw [List.filter_cons, if_neg hqx]
          exact ih hrest

/-- A run that is admissible up to and including a final acquisition is
admissible before it, and that final acquisition passed the
fewer-than-`N`-after-pruning check. -/
theorem rlAdmissible_concat (N : Nat) (W : ℚ) (xs : List ℚ) (t : ℚ) :
    ∀ s, rlAdmissible N W s (xs ++ [t]) = true →
      rlAdmissible N W s xs = true ∧
        (prune W t (xs.foldl (rlStep W) s)).length < N := by
  induction xs with
  | nil =>
      intro s h
      refine ⟨rfl, ?_⟩
      have h' : (decide ((prune W t s).length < N)
          && rlAdmissible N W (rlStep W s t) []) = true := h
      simp only [rlAdmissible, Bool.and_true] at h'
      simpa using h'
  | cons x rest ih =>
      intro s h
      have h' : (decide ((prune W x s).length < N)
          && rlAdmissible N W (rlStep W s x) (rest ++ [t])) = true := h
      rw [Bool.and_eq_true] at h'
      obtain ⟨h1, h2⟩ := h'
      have hrec := ih (rlStep W s x) h2
      refine ⟨?_, ?_⟩
      · show (decide ((prune W x s).length < N)
            && rlAdmissible N W (rlStep W s x) rest) = true
        rw [Bool.and_eq_true]
        exact ⟨h1, hrec.1⟩
      · simpa [List.foldl_cons] using hrec.2

/-- For a nondecreasing run, pruning the limiter state at a later time
`t` leaves exactly the past acquisition times still inside the trailing
window at `t`. -/
theorem prune_runRL (W : ℚ) (hW : 0 < W) :
    ∀ (xs : List ℚ) (t : ℚ), (xs ++ [t]).Pairwise (· ≤ ·) →
      prune W t (runRL W xs) = xs.filter (fun x => decide (t - x < W)) := by
  intro xs
  induction xs using List.reverseRecOn with
  | nil => intro t _; rfl
  | append_singleton ys u ihy =>
      intro t hp
      have hyu : (ys ++ [u]).Pairwise (· ≤ ·) :=
        (List.pairwise_append.mp hp).1
      have hut : u ≤ t := by
        have := (List.pairwise_append.mp hp).2.2
        exact this u (by simp) t (by simp)
      have hyu' : ∀ x ∈ ys, x ≤ u := by
        intro x hx
        exact (List.pairwise_append.mp hyu).2.2 x hx u (by simp)
      have hrun : runRL W (ys ++ [u])
          = ys.filter (fun x => decide (u - x < W)) ++ [u] := by
        show (ys ++ [u]).foldl (rlStep W) [] = _
        rw [List.foldl_append]
        show rlStep W (runRL W ys) u = _
        rw [rlStep, ihy u hyu]
      rw [hrun, prune, List.filter_append]
      have hcomp : (ys.filter (fun x => decide (u - x < W))).filter
            (fun x => decide (t - x < W))
          = ys.filter (fun x => decide (t - x < W)) := by
        rw [List.filter_filter]
        refine List.filter_congr ?_
        intro x hx
        by_cases hxt : t - x < W
        · have hxu : u - x < W := lt_of_le_of_lt (by linarith) hxt
          simp [hxt, hxu]
        · simp [hxt]
      rw [hcomp, List.filter_append]

/-- C3: rate-limit bound.  For every nondecreasing admissible run of
completed `acquire()` calls of a `RateLimiter(max_requests := N,
window_seconds := W)`, every trailing window `(a, a + W]` of length `W`
contains at most `N` completed acquisitions: a timestamp is appended
only when pruning left fewer than `N` timestamps inside the trailing
window (fred_service.py lines 93-117). -/
theorem rate_limit_window_bound (N : Nat) (W : ℚ) (hW : 0 < W)
    (ts : List ℚ) (hsort : ts.Pairwise (· ≤ ·))
    (hadm : rlAdmissible N W [] ts = true) (a : ℚ) :
    (ts.filter (fun t => decide (a < t ∧ t ≤ a + W))).length ≤ N := by
  induction ts using List.reverseRecOn with
  | nil => simp
  | append_singleton xs t ih =>
      obtain ⟨hadm', hbound⟩ := rlAdmissible_concat N W xs t [] hadm
      have hsx : xs.Pairwise (· ≤ ·) := (List.pairwise_append.mp hsort).1
      have hprune : prune W t (runRL W xs)
          = xs.filter (fun x => decide (t - x < W)) :=
        prune_runRL W hW xs t hsort
      have hbound' : (xs.filter (fun x => decide (t - x < W))).length < N := by
        rw [← hprune]
        exact hbound
      rw [List.filter_append]
      by_cases hin : a < t ∧ t ≤ a + W
      · have hone : List.filter (fun t => decide (a < t ∧ t ≤ a + W)) [t]
            = [t] := by simp [hin]
        rw [hone]
        have hmono : (xs.filter (fun x => decide (a < x ∧ x ≤ a + W))).length
            ≤ (xs.filter (fun x => decide (t - x < W))).length := by
          refine filter_length_mono xs _ _ ?_
          intro x hx hpx
          rw [decide_eq_true_eq] at hpx
          rw [decide_eq_true_eq]
          have h1 : a < x := hpx.1
          have h2 : t ≤ a + W := hin.2
          linarith
        simp only [List.length_append, List.length_cons, List.length_nil]
        omega
      · have hzero : List.filter (fun t => decide (a < t ∧ t ≤ a + W)) [t]
            = [] := by simp [hin]
        rw [hzero, List.append_nil]
        exact ih hsx hadm'

/-- C3 witness: with `N = 2`, `W = 60`, the admissible nondecreasing
run `[0, 1]` has at most 2 acquisitions in the window `(-1, 59]`. -/
theorem rate_limit_window_bound_witness :
    (([0, 1] : List ℚ).filter
      (fun t => decide ((-1 : ℚ) < t ∧ t ≤ -1 + 60))).length ≤ 2 := by
  refine rate_limit_window_bound 2 60 (by norm_num) [0, 1] ?_ ?_ (-1)
  · norm_num [List.pairwise_cons]
  · simp [rlAdmissible, rlStep, prune]

/-- C4 counterexample: `update_metric_since_last` does not request the
window watermark+1 .. today.  With one stored row dated 500 and now =
600, the claim says the request to `fetch_historical` should carry
`observation_start = 501` and `observation_end = 600`; the code passes
no start or end date at all (incremental_update_service.py lines
58-61), only `use_cache=False`. -/
theorem sync_request_counterexample :
    (updateMetricSinceLast 600 "DFF" [⟨"DFF", "FRED", 500, 1⟩]
        (fun _ => ⟨[]⟩)).request = ⟨none, none, false⟩
    ∧ (⟨none, none, false⟩ : FetchReq) ≠ ⟨some 501, some 600, false⟩ := by
  exact ⟨rfl, by decide⟩

/-- C4 (amended): `update_metric_since_last` computes the watermark as
the maximum stored date for the metric, defaulting to 365 days before
now when no rows exist; it requests the full available history with the
cache bypassed (`use_cache=False` and no date bounds — not the window
watermark+1 .. today); it filters the response to dates strictly after
the watermark and stores exactly that remainder; an empty response
yields `status=error`, and a nonempty response whose filtered remainder
is empty yields `status=success` with `count=0`, leaving the rows
unchanged. -/
theorem sync_algorithm (now : ℚ) (code : String) (rows : List StoredRow)
    (fetch : FetchReq → FetchRes) :
    (updateMetricSinceLast now code rows fetch).request
      = ⟨none, none, false⟩
    ∧ ((fetch ⟨none, none, false⟩).data = [] →
        (updateMetricSinceLast now code rows fetch).status = UpdStatus.error
        ∧ (updateMetricSinceLast now code rows fetch).count = 0
        ∧ (updateMetricSinceLast now code rows fetch).rows = rows)
    ∧ ((fetch ⟨none, none, false⟩).data ≠ [] →
        (updateMetricSinceLast now code rows fetch).status = UpdStatus.success
        ∧ (updateMetricSinceLast now code rows fetch).count
            = ((fetch ⟨none, none, false⟩).data.filter (fun p =>
                decide ((getLastDate rows code).getD (now - 365) < p.date))).length
        ∧ (updateMetricSinceLast now code rows fetch).rows
            = rows ++ ((fetch ⟨none, none, false⟩).data.filter (fun p =>
                decide ((getLastDate rows code).getD (now - 365) < p.date))).map
                  (fun p => ⟨code, "FRED", p.date, p.value⟩)) := by
  constructor
  · rw [updateMetricSinceLast]
    by_cases hempty : (fetch ⟨none, none, false⟩).data = []
    · simp [hempty]
    · simp only [if_neg hempty]
      by_cases hnew : (fetch ⟨none, none, false⟩).data.filter (fun p =>
          decide ((getLastDate rows code).getD (now - 365) < p.date)) = []
      · simp [hnew]
      · simp [hnew]
  constructor
  · intro hempty
    rw [updateMetricSinceLast]
    simp [hempty]
  · intro hne
    rw [updateMetricSinceLast]
    simp only [if_neg hne]
    by_cases hnew : (fetch ⟨none, none, false⟩).data.filter (fun p =>
        decide ((getLastDate rows code).getD (now - 365) < p.date)) = []
    · simp [hnew]
    · simp [hnew]

/-- C4 witness: with no stored rows, now = 600 and one upstream
observation dated 300 (after the default watermark 235), the sync
records the boundless cache-bypassing request, succeeds and stores the
one observation. -/
theorem sync_algorithm_witness :
    (updateMetricSinceLast 600 "DFF" [] (fun _ => ⟨[⟨300, 2⟩]⟩)).request
      = ⟨none, none, false⟩
    ∧ (updateMetricSinceLast 600 "DFF" [] (fun _ => ⟨[⟨300, 2⟩]⟩)).status
      = UpdStatus.success
    ∧ (updateMetricSinceLast 600 "DFF" [] (fun _ => ⟨[⟨300, 2⟩]⟩)).count = 1 := by
  have h := sync_algorithm 600 "DFF" [] (fun _ => ⟨[⟨300, 2⟩]⟩)
  have h2 := h.2.2 (by decide)
  refine ⟨h.1, h2.1, ?_⟩
  rw [h2.2.1]
  norm_num [getLastDate, maxQ]

/-- The maximum of a nonempty list is one of its elements. -/
theorem maxQ_mem : ∀ {l : List ℚ} {m : ℚ}, maxQ l = some m → m ∈ l := by
  intro l
  induction l with
  | nil => intro m h; exact absurd h (by simp [maxQ])
  | cons d ds ih =>
      intro m h
      rw [maxQ] at h
      cases hds : maxQ ds with
      | none =>
          rw [hds] at h
          simp only [Option.some.injEq] at h
          exact h ▸ List.mem_cons_self d ds
      | some m' =>
          rw [hds] at h
          simp only [Option.some.injEq] at h
          rcases max_choice d m' with hc | hc
          · rw [hc] at h
            exact h ▸ List.mem_cons_self d ds
          · rw [hc] at h
            exact h ▸ List.mem_cons_of_mem d (ih hds)

/-- Every element of a list is at most its maximum. -/
theorem le_maxQ : ∀ {l : List ℚ} {x m : ℚ}, x ∈ l → maxQ l = some m → x ≤ m := by
  intro l
  induction l with
  | nil => intro x m hx; exact absurd hx (List.not_mem_nil x)
  | cons d ds ih =>
      intro x m hx h
      rw [maxQ] at h
      cases hds : maxQ ds with
      | none =>
          rw [hds] at h
          simp only [Option.some.injEq] at h
          have hdnil : ds = [] := by
            cases ds with
            | nil => rfl
            | cons e es => exact absurd hds (by rw [maxQ]; simp)
          rcases List.mem_cons.mp hx with rfl | hxs
          · exact le_of_eq h
          · rw [hdnil] at hxs
            exact absurd hxs (List.not_mem_nil x)
      | some m' =>
          rw [hds] at h
          simp only [Option.some.injEq] at h
          rcases List.mem_cons.mp hx with rfl | hxs
          · exact h ▸ le_max_left x m'
          · exact le_trans (ih hxs hds) (h ▸ le_max_right d m')

/-- A nonempty list has a maximum. -/
theorem maxQ_isSome {l : List ℚ} (h : l ≠ []) : ∃ m, maxQ l = some m := by
  cases l with
  | nil => exact absurd rfl h
  | cons d ds => exact ⟨_, by rw [maxQ]⟩

/-- C5 counterexample: with no stored rows, now = day 1000, and the
upstream returning 10 observations spread over the last 400 days (dates
600, 640, ..., 960), `sync` stores 9 rows, not 10: the default
watermark is one year back (day 635), so the observation dated 600 is
filtered out. -/
theorem sync_scenario_counterexample :
    (updateMetricSinceLast 1000 "X" []
      (fun _ => ⟨[⟨600, 1⟩, ⟨640, 2⟩, ⟨680, 3⟩, ⟨720, 4⟩, ⟨760, 5⟩,
                  ⟨800, 6⟩, ⟨840, 7⟩, ⟨880, 8⟩, ⟨920, 9⟩, ⟨960, 10⟩]⟩)).count = 9
    ∧ (9 : Nat) ≠ 10 := by
  constructor
  · norm_num [updateMetricSinceLast, getLastDate, maxQ]
    decide
  · decide

/-- C5 (amended): for a series with no stored rows, `sync` stores
exactly the upstream observations dated strictly after the default
watermark of one year before now — in particular all of them when they
all lie within the last 365 days — and reports their number with
`status=success`; a second `sync` in which the upstream returns the
same observations plus one strictly newer one stores exactly the one
new row. -/
theorem sync_scenario_amended (now : ℚ) (obs : List Obs) (nw : Obs)
    (hne : obs ≠ [])
    (hin : ∀ o ∈ obs, now - 365 < o.date)
    (hnw : ∀ o ∈ obs, o.date < nw.date) :
    (updateMetricSinceLast now "X" [] (fun _ => ⟨obs⟩)).status
      = UpdStatus.success
    ∧ (updateMetricSinceLast now "X" [] (fun _ => ⟨obs⟩)).count = obs.length
    ∧ (updateMetricSinceLast now "X" [] (fun _ => ⟨obs⟩)).rows
        = obs.map (fun p => ⟨"X", "FRED", p.date, p.value⟩)
    ∧ (updateMetricSinceLast now "X"
          (obs.map (fun p => ⟨"X", "FRED", p.date, p.value⟩))
          (fun _ => ⟨obs ++ [nw]⟩)).status = UpdStatus.success
    ∧ (updateMetricSinceLast now "X"
          (obs.map (fun p => ⟨"X", "FRED", p.date, p.value⟩))
          (fun _ => ⟨obs ++ [nw]⟩)).count = 1
    ∧ (updateMetricSinceLast now "X"
          (obs.map (fun p => ⟨"X", "FRED", p.date, p.value⟩))
          (fun _ => ⟨obs ++ [nw]⟩)).rows
        = obs.map (fun p => ⟨"X", "FRED", p.date, p.value⟩)
          ++ [⟨"X", "FRED", nw.date, nw.value⟩] := by
  have hfilter1 : obs.filter (fun p => decide (now - 365 < p.date)) = obs :=
    List.filter_eq_self.mpr (fun o ho => decide_eq_true (hin o ho))
  have hr1 : updateMetricSinceLast now "X" [] (fun _ => ⟨obs⟩)
      = ⟨UpdStatus.success, obs.length,
         obs.map (fun p => ⟨"X", "FRED", p.date, p.value⟩),
         ⟨none, none, false⟩⟩ := by
    rw [updateMetricSinceLast]
    have hg : getLastDate ([] : List StoredRow) "X" = none := rfl
    rw [hg]
    simp only [Option.getD_none]
    show (if obs = [] then _ else _) = _
    rw [if_neg hne, hfilter1, if_neg hne]
    simp
  obtain ⟨m, hm⟩ := maxQ_isSome
    (show obs.map (fun p => p.date) ≠ [] by
      intro hc; exact hne (List.map_eq_nil.mp hc))
  have hglast : getLastDate
      (obs.map (fun p => (⟨"X", "FRED", p.date, p.value⟩ : StoredRow))) "X"
      = some m := by
    rw [getLastDate]
    have hfilt : (obs.map (fun p =>
          (⟨"X", "FRED", p.date, p.value⟩ : StoredRow))).filter
            (fun r => decide (r.metric_code = "X"))
        = obs.map (fun p => ⟨"X", "FRED", p.date, p.value⟩) := by
      refine List.filter_eq_self.mpr ?_
      intro r hr
      rcases List.mem_map.mp hr with ⟨o, _, rfl⟩
      simp
    rw [hfilt, List.map_map]
    exact hm
  have hub : ∀ o ∈ obs, o.date ≤ m := fun o ho =>
    le_maxQ (List.mem_map_of_mem (fun p => p.date) ho) hm
  have hmlt : m < nw.date := by
    rcases List.mem_map.mp (maxQ_mem hm) with ⟨o, ho, rfl⟩
    exact hnw o ho
  have hfilter2 : (obs ++ [nw]).filter (fun p => decide (m < p.date))
      = [nw] := by
    rw [List.filter_append]
    have h1 : obs.filter (fun p => decide (m < p.date)) = [] := by
      refine List.filter_eq_nil.mpr ?_
      intro o ho
      simp only [decide_eq_true_eq]
      exact not_lt.mpr (hub o ho)
    have h2 : [nw].filter (fun p => decide (m < p.date)) = [nw] := by
      simp [hmlt]
    rw [h1, h2, List.nil_append]
  have hr2 : updateMetricSinceLast now "X"
        (obs.map (fun p => ⟨"X", "FRED", p.date, p.value⟩))
        (fun _ => ⟨obs ++ [nw]⟩)
      = ⟨UpdStatus.success, 1,
         obs.map (fun p => ⟨"X", "FRED", p.date, p.value⟩)
           ++ [⟨"X", "FRED", nw.date, nw.value⟩],
         ⟨none, none, false⟩⟩ := by
    rw [updateMetricSinceLast, hglast]
    simp only [Option.getD_some]
    have hne2 : obs ++ [nw] ≠ [] := by simp
    show (if obs ++ [nw] = [] then _ else _) = _
    rw [if_neg hne2, hfilter2]
    simp
  rw [hr1, hr2]
  exact ⟨rfl, rfl, rfl, rfl, rfl, rfl⟩

/-- C5 witness: now = day 1000, first sync returns observations dated
700 and 800 (both within the last year), the second sync adds one dated
900: the first stores 2 rows, the second exactly 1. -/
theorem sync_scenario_amended_witness :
    (updateMetricSinceLast 1000 "X" []
        (fun _ => ⟨[⟨700, 1⟩, ⟨800, 2⟩]⟩)).count = 2
    ∧ (updateMetricSinceLast 1000 "X"
        (([⟨700, 1⟩, ⟨800, 2⟩] : List Obs).map
          (fun p => ⟨"X", "FRED", p.date, p.value⟩))
        (fun _ => ⟨[⟨700, 1⟩, ⟨800, 2⟩] ++ [⟨900, 3⟩]⟩)).count = 1 := by
  have h := sync_scenario_amended 1000 [⟨700, 1⟩, ⟨800, 2⟩] ⟨900, 3⟩
    (by decide) (by norm_num) (by norm_num)
  exact ⟨h.2.1, h.2.2.2.2.1⟩

/-- C6 counterexample: the processing loop does not exclude exactly the
sentinel/null entries — an entry whose value string fails numeric
parsing (here `"abc"`, which raises `ValueError` in `float()`) is also
excluded.  The claim would keep this non-sentinel entry; the code drops
it. -/
theorem missing_value_counterexample :
    processObservations [⟨"2025-01-01", some "abc"⟩] = []
    ∧ ([⟨"2025-01-01", some "abc"⟩] : List RawObs).filter
        (fun o => decide (o.value ≠ some "." ∧ o.value ≠ none)) ≠ [] := by
  constructor
  · rfl
  · decide

/-- C6 (amended): the observation list built by `fetch_historical`
excludes exactly the entries whose value is the sentinel `"."`, absent,
or not parseable as a number; every entry kept carries the numeric
parse of its payload value string (so a sentinel never becomes a stored
zero or null), the returned `count` equals the length of the filtered
list, and the per-series extraction of `fetch_current_values` applies
the same filtering to the first observation. -/
theorem missing_value_filtering (sid name unit : String)
    (obs : List RawObs) :
    processObservations obs = obs.filterMap (fun o =>
        match o.value with
        | none => none
        | some s =>
            if s = "." then none
            else (parseFloat s).map (fun v => (⟨o.date, v⟩ : ProcObs)))
    ∧ (∀ p ∈ processObservations obs, ∃ o ∈ obs, ∃ s,
        o.value = some s ∧ s ≠ "." ∧ parseFloat s = some p.value
        ∧ p.date = o.date)
    ∧ (directHistResult sid name unit obs).count
        = (processObservations obs).length
    ∧ (∀ o rest, obs = o :: rest →
        currentValueFrom obs = (match o.value with
          | none => none
          | some s =>
              if s = "." then none
              else (parseFloat s).map (fun v => (⟨o.date, v⟩ : ProcObs)))) := by
  refine ⟨?_, ?_, rfl, ?_⟩
  · induction obs with
    | nil => rfl
    | cons o rest ih =>
        rw [processObservations, List.filterMap_cons]
        cases hv : o.value with
        | none => exact ih
        | some s =>
            dsimp only
            by_cases hdot : s = "."
            · rw [if_pos hdot, if_pos hdot]
              exact ih
            · rw [if_neg hdot, if_neg hdot]
              cases hpf : parseFloat s with
              | none =>
                  rw [Option.map_none']
                  exact ih
              | some v =>
                  rw [Option.map_some']
                  dsimp only
                  rw [ih]
  · intro p hp
    induction obs with
    | nil => exact absurd hp (List.not_mem_nil p)
    | cons o rest ih =>
        rw [processObservations] at hp
        cases hv : o.value with
        | none =>
            rw [hv] at hp
            rcases ih hp with ⟨o', ho', hs⟩
            exact ⟨o', List.mem_cons_of_mem o ho', hs⟩
        | some s =>
            rw [hv] at hp
            have hp' : p ∈ (if s = "." then processObservations rest
                else match parseFloat s with
                  | none => processObservations rest
                  | some v =>
                      (⟨o.date, v⟩ : ProcObs) :: processObservations rest) := hp
            by_cases hdot : s = "."
            · rw [if_pos hdot] at hp'
              rcases ih hp' with ⟨o', ho', hs⟩
              exact ⟨o', List.mem_cons_of_mem o ho', hs⟩
            · rw [if_neg hdot] at hp'
              cases hpf : parseFloat s with
              | none =>
                  rw [hpf] at hp'
                  rcases ih hp' with ⟨o', ho', hs⟩
                  exact ⟨o', List.mem_cons_of_mem o ho', hs⟩
              | some v =>
                  rw [hpf] at hp'
                  have hp'' : p ∈ (⟨o.date, v⟩ : ProcObs)
                      :: processObservations rest := hp'
                  rcases List.mem_cons.mp hp'' with rfl | hrest
                  · exact ⟨o, List.mem_cons_self o rest, s, hv, hdot, hpf, rfl⟩
                  · rcases ih hrest with ⟨o', ho', hs⟩
                    exact ⟨o', List.mem_cons_of_mem o ho', hs⟩
  · intro o rest hobs
    rw [hobs]
    rfl

/-- C6 witness: a payload with a sentinel entry, a parseable entry and
an absent value keeps exactly the parsed entry, the count matches, and
the current-value path drops the leading sentinel. -/
theorem missing_value_filtering_witness :
    processObservations
        [⟨"d1", some "."⟩, ⟨"d2", some "5.5"⟩, ⟨"d3", none⟩]
      = ([⟨"d1", some "."⟩, ⟨"d2", some "5.5"⟩, ⟨"d3", none⟩]
          : List RawObs).filterMap (fun o =>
            match o.value with
            | none => none
            | some s =>
                if s = "." then none
                else (parseFloat s).map (fun v => (⟨o.date, v⟩ : ProcObs)))
    ∧ (directHistResult "DFF" "Federal Funds Rate" "Percent"
        [⟨"d1", some "."⟩, ⟨"d2", some "5.5"⟩, ⟨"d3", none⟩]).count
      = (processObservations
          [⟨"d1", some "."⟩, ⟨"d2", some "5.5"⟩, ⟨"d3", none⟩]).length
    ∧ currentValueFrom [⟨"d1", some "."⟩, ⟨"d2", some "5.5"⟩, ⟨"d3", none⟩]
      = none := by
  have h := missing_value_filtering "DFF" "Federal Funds Rate" "Percent"
    [⟨"d1", some "."⟩, ⟨"d2", some "5.5"⟩, ⟨"d3", none⟩]
  refine ⟨h.1, h.2.2.1, ?_⟩
  rw [h.2.2.2 ⟨"d1", some "."⟩ [⟨"d2", some "5.5"⟩, ⟨"d3", none⟩] rfl]
  rfl

/-- The mean of a nonempty constant list is the constant. -/
theorem qMean_const {l : List ℚ} {c : ℚ} (hne : l ≠ [])
    (hc : ∀ x ∈ l, x = c) : qMean l = c := by
  have hsum : l.sum = (l.length : ℚ) * c := by
    induction l with
    | nil => simp
    | cons x rest ih =>
        have hx : x = c := hc x (List.mem_cons_self x rest)
        by_cases hr : rest = []
        · subst hr; simp [hx]
        · have hs := ih hr (fun y hy => hc y (List.mem_cons_of_mem x hy))
          rw [List.sum_cons, hs, hx, List.length_cons]
          push_cast
          ring
  rw [qMean, hsum]
  have hlen : (l.length : ℚ) ≠ 0 := by
    simpa using List.length_pos.mpr hne |>.ne'
  field_simp

/-- The population variance of a nonempty constant list is zero. -/
theorem popVar_const {l : List ℚ} {c : ℚ} (hne : l ≠ [])
    (hc : ∀ x ∈ l, x = c) : popVar l = 0 := by
  rw [popVar]
  have hz : (l.map (fun x => (x - qMean l) ^ 2)).sum = 0 := by
    refine List.sum_eq_zero ?_
    intro y hy
    rcases List.mem_map.mp hy with ⟨x, hx, rfl⟩
    rw [hc x hx, qMean_const hne hc]
    ring
  rw [hz]
  simp

/-- The population variance is nonnegative. -/
theorem popVar_nonneg (l : List ℚ) : 0 ≤ popVar l := by
  rw [popVar]
  refine div_nonneg ?_ (by positivity)
  refine List.sum_nonneg ?_
  intro y hy
  rcases List.mem_map.mp hy with ⟨x, _, rfl⟩
  positivity

/-- C7 counterexample: a non-empty single-element history takes the
defaults branch (`len(historical) < 2`, lines 162-170): with history
value 1 and current value 5 the returned percentile is 50, while the
claimed formula (number of historical values ≤ current / number of
values) × 100 gives 100. -/
theorem assess_significance_counterexample :
    (assessSignificance 5 [⟨0, 1⟩]).percentile = 50
    ∧ ((([(⟨0, 1⟩ : HPoint)].map (fun p => p.value)).countP
          (fun x => decide (x ≤ (5 : ℚ)))) : ℚ)
        / (([(⟨0, 1⟩ : HPoint)]).length : ℚ) * 100 = 100
    ∧ (50 : ℚ) ≠ 100 := by
  refine ⟨rfl, ?_, by norm_num⟩
  norm_num [List.countP, List.countP.go]

/-- C7 (amended): for histories with at least two points,
`assess_significance` computes over the full history the percentile
(number of values ≤ current / number of values) × 100, the z-score
`(current - mean) / population std` (0 when the std is 0, so a
constant-valued history yields z-score 0 and no outlier), and
`is_outlier` iff `|z| > 2`, equivalently iff the variance is positive
and `4·var < (current - mean)²`; histories with fewer than two points
(including non-empty singletons) return the defaults z-score 0,
percentile 50, no outlier; history [1,2,3,4,5] with current 5 yields
percentile 100.  (The returned dict additionally display-rounds z to
2 and percentile to 1 decimals, lines 194-199.) -/
theorem assess_significance_conformance :
    (∀ (current c : ℚ) (hist : List HPoint), 2 ≤ hist.length →
        (∀ p ∈ hist, p.value = c) →
        (assessSignificance current hist).z_score = 0
        ∧ ¬ (assessSignificance current hist).is_outlier)
    ∧ (∀ (current : ℚ) (hist : List HPoint), 2 ≤ hist.length →
        (assessSignificance current hist).percentile =
          (((hist.map (fun p => p.value)).countP
              (fun x => decide (x ≤ current))) : ℚ)
            / (hist.length : ℚ) * 100)
    ∧ (∀ (current : ℚ) (hist : List HPoint), 2 ≤ hist.length →
        ((assessSignificance current hist).is_outlier ↔
          (0 < popVar (hist.map (fun p => p.value))
            ∧ 4 * popVar (hist.map (fun p => p.value))
                < (current - qMean (hist.map (fun p => p.value))) ^ 2)))
    ∧ (∀ (current : ℚ) (hist : List HPoint), hist.length < 2 →
        (assessSignificance current hist).z_score = 0
        ∧ (assessSignificance current hist).percentile = 50
        ∧ ¬ (assessSignificance current hist).is_outlier)
    ∧ (assessSignificance 5
        [⟨1, 1⟩, ⟨2, 2⟩, ⟨3, 3⟩, ⟨4, 4⟩, ⟨5, 5⟩]).percentile = 100 := by
  have hmain : ∀ (current : ℚ) (hist : List HPoint), 2 ≤ hist.length →
      ((assessSignificance current hist).is_outlier ↔
        (0 < popVar (hist.map (fun p => p.value))
          ∧ 4 * popVar (hist.map (fun p => p.value))
              < (current - qMean (hist.map (fun p => p.value))) ^ 2)) := by
    intro current hist h2
    rw [assessSignificance, if_neg (by omega : ¬ hist.length < 2)]
    dsimp only
    set vals := hist.map (fun p => p.value) with hvals
    rcases lt_or_eq_of_le (popVar_nonneg vals) with hv | hv
    · have hVpos : (0 : ℝ) < ((popVar vals : ℚ) : ℝ) := by exact_mod_cast hv
      have hstd : (0 : ℝ) < popStd vals := by
        rw [popStd]
        exact Real.sqrt_pos.mpr hVpos
      rw [if_pos hstd]
      have hS2 : popStd vals ^ 2 = ((popVar vals : ℚ) : ℝ) := by
        rw [popStd]
        exact Real.sq_sqrt hVpos.le
      have habs : |((current : ℝ) - ((qMean vals : ℚ) : ℝ)) / popStd vals|
          = |(current : ℝ) - ((qMean vals : ℚ) : ℝ)| / popStd vals := by
        rw [abs_div, abs_of_pos hstd]
      constructor
      · intro h
        rw [gt_iff_lt, habs, lt_div_iff hstd] at h
        refine ⟨hv, ?_⟩
        have hsq : (2 * popStd vals) * (2 * popStd vals)
            < |(current : ℝ) - ((qMean vals : ℚ) : ℝ)|
              * |(current : ℝ) - ((qMean vals : ℚ) : ℝ)| :=
          mul_self_lt_mul_self (by positivity) (by linarith)
        have hA2 : |(current : ℝ) - ((qMean vals : ℚ) : ℝ)|
              * |(current : ℝ) - ((qMean vals : ℚ) : ℝ)|
            = ((current : ℝ) - ((qMean vals : ℚ) : ℝ)) ^ 2 := by
          rw [← sq_abs]
          ring
        have hreal : (4 : ℝ) * ((popVar vals : ℚ) : ℝ)
            < ((current : ℝ) - ((qMean vals : ℚ) : ℝ)) ^ 2 := by
          nlinarith [hS2]
        have : ((4 * popVar vals : ℚ) : ℝ)
            < (((current - qMean vals) ^ 2 : ℚ) : ℝ) := by
          push_cast
          push_cast at hreal
          linarith
        exact_mod_cast this
      · rintro ⟨-, h⟩
        have hreal : (4 : ℝ) * ((popVar vals : ℚ) : ℝ)
            < ((current : ℝ) - ((qMean vals : ℚ) : ℝ)) ^ 2 := by
          have : ((4 * popVar vals : ℚ) : ℝ)
              < (((current - qMean vals) ^ 2 : ℚ) : ℝ) := by exact_mod_cast h
          push_cast at this
          linarith
        have hsq : (2 * popStd vals) ^ 2
            < |(current : ℝ) - ((qMean vals : ℚ) : ℝ)| ^ 2 := by
          rw [sq_abs]
          nlinarith [hS2]
        have hlt : 2 * popStd vals
            < |(current : ℝ) - ((qMean vals : ℚ) : ℝ)| :=
          lt_of_pow_lt_pow_left 2 (abs_nonneg _) hsq
        rw [gt_iff_lt, habs, lt_div_iff hstd]
        linarith
    · have hstd : popStd vals = 0 := by
        rw [popStd, ← hv]
        simp
      rw [if_neg (by rw [hstd]; exact lt_irrefl 0)]
      constructor
      · intro h
        simp at h
        exact absurd h (by norm_num)
      · rintro ⟨h0, -⟩
        exact absurd hv (by exact ne_of_gt h0 |>.symm)
  refine ⟨?_, ?_, hmain, ?_, ?_⟩
  · intro current c hist h2 hc
    have hne : hist.map (fun p => p.value) ≠ [] := by
      intro hnil
      have := List.map_eq_nil.mp hnil
      subst this
      simp at h2
    have hconst : ∀ x ∈ hist.map (fun p => p.value), x = c := by
      intro x hx
      rcases List.mem_map.mp hx with ⟨p, hp, rfl⟩
      exact hc p hp
    have hvar : popVar (hist.map (fun p => p.value)) = 0 :=
      popVar_const hne hconst
    have hstd : popStd (hist.map (fun p => p.value)) = 0 := by
      rw [popStd, hvar]
      simp
    constructor
    · rw [assessSignificance, if_neg (by omega : ¬ hist.length < 2)]
      dsimp only
      rw [if_neg (by rw [hstd]; exact lt_irrefl 0)]
    · rw [hmain current hist h2, hvar]
      rintro ⟨h0, -⟩
      exact absurd h0 (lt_irrefl 0)
  · intro current hist h2
    rw [assessSignificance, if_neg (by omega : ¬ hist.length < 2)]
    dsimp only
    rw [List.length_map]
  · intro current hist h2
    rw [assessSignificance, if_pos h2]
    refine ⟨rfl, rfl, ?_⟩
    intro h
    simp at h
  · rw [assessSignificance,
      if_neg (by norm_num :
        ¬ ([⟨1, 1⟩, ⟨2, 2⟩, ⟨3, 3⟩, ⟨4, 4⟩, ⟨5, 5⟩] : List HPoint).length < 2)]
    dsimp only
    norm_num [List.countP, List.countP.go]

/-- C7 witness: the z-score of the constant history [2, 2] with current
7 is 0 and not an outlier; the percentile formula holds for history
values [1, 2] with current 2 (100); the singleton history returns the
defaults; and the [1,2,3,4,5] example gives percentile 100. -/
theorem assess_significance_conformance_witness :
    ((assessSignificance 7 [⟨0, 2⟩, ⟨1, 2⟩]).z_score = 0
      ∧ ¬ (assessSignificance 7 [⟨0, 2⟩, ⟨1, 2⟩]).is_outlier)
    ∧ (assessSignificance 2 [⟨0, 1⟩, ⟨1, 2⟩]).percentile =
        ((([(⟨0, 1⟩ : HPoint), ⟨1, 2⟩].map (fun p => p.value)).countP
            (fun x => decide (x ≤ (2 : ℚ)))) : ℚ)
          / (([(⟨0, 1⟩ : HPoint), ⟨1, 2⟩]).length : ℚ) * 100
    ∧ ((assessSignificance 9 [⟨0, 4⟩]).z_score = 0
        ∧ (assessSignificance 9 [⟨0, 4⟩]).percentile = 50
        ∧ ¬ (assessSignificance 9 [⟨0, 4⟩]).is_outlier)
    ∧ (assessSignificance 5
        [⟨1, 1⟩, ⟨2, 2⟩, ⟨3, 3⟩, ⟨4, 4⟩, ⟨5, 5⟩]).percentile = 100 := by
  refine ⟨?_, ?_, ?_, assess_significance_conformance.2.2.2.2⟩
  · exact assess_significance_conformance.1 7 2 [⟨0, 2⟩, ⟨1, 2⟩]
      (by norm_num) (by decide)
  · exact assess_significance_conformance.2.1 2 [⟨0, 1⟩, ⟨1, 2⟩] (by norm_num)
  · exact assess_significance_conformance.2.2.2.1 9 [⟨0, 4⟩] (by norm_num)

/-- C8: cache neutrality.  For a fixed upstream payload, and a cache
that (if it holds anything for the key) holds what a prior fetch of the
same payload stored, `fetch_historical` returns the same data whether
the cache backend is enabled, disabled, empty, or erroring: up to the
`_cache_metadata` annotation the result always equals the direct fetch,
and a backend error or disabled backend yields exactly the direct
result (the error is swallowed in `_get_from_cache` and treated as a
miss, never surfaced). -/
theorem cache_neutrality (cache : CacheBackend) (useCache : Bool)
    (sid name unit : String) (obs : List RawObs)
    (hcoh : ∀ d ttl, cache = CacheBackend.working (some d) ttl →
        d = directHistResult sid name unit obs) :
    stripMeta (fetchHistorical cache useCache sid name unit obs)
      = directHistResult sid name unit obs
    ∧ ((cache = CacheBackend.disabled ∨ cache = CacheBackend.erroring) →
        fetchHistorical cache useCache sid name unit obs
          = directHistResult sid name unit obs)
    ∧ fetchHistorical cache false sid name unit obs
        = directHistResult sid name unit obs := by
  have hdirectMeta : (directHistResult sid name unit obs).cacheMeta = none :=
    rfl
  have hstripDirect : stripMeta (directHistResult sid name unit obs)
      = directHistResult sid name unit obs := by
    rw [stripMeta, ← hdirectMeta]
  refine ⟨?_, ?_, ?_⟩
  · cases cache with
    | disabled =>
        cases useCache with
        | false => exact hstripDirect
        | true => exact hstripDirect
    | erroring =>
        cases useCache with
        | false => exact hstripDirect
        | true => exact hstripDirect
    | working val ttl =>
        cases val with
        | none =>
            cases useCache with
            | false => exact hstripDirect
            | true => exact hstripDirect
        | some d =>
            cases useCache with
            | false => exact hstripDirect
            | true =>
                have hd := hcoh d ttl rfl
                show stripMeta { d with cacheMeta := some _ } = _
                rw [hd]
                rfl
  · intro hc
    rcases hc with rfl | rfl
    · cases useCache with
      | false => rfl
      | true => rfl
    · cases useCache with
      | false => rfl
      | true => rfl
  · rfl

/-- C8 witness: a cache hit holding the prior direct result of a
one-observation payload strips to the direct result, and the erroring
backend returns it unchanged. -/
theorem cache_neutrality_witness :
    stripMeta (fetchHistorical
        (CacheBackend.working
          (some (directHistResult "DFF" "Federal Funds Rate" "Percent"
            [⟨"2025-10-01", some "5.33"⟩])) 100)
        true "DFF" "Federal Funds Rate" "Percent"
        [⟨"2025-10-01", some "5.33"⟩])
      = directHistResult "DFF" "Federal Funds Rate" "Percent"
          [⟨"2025-10-01", some "5.33"⟩]
    ∧ fetchHistorical CacheBackend.erroring true "DFF" "Federal Funds Rate"
        "Percent" [⟨"2025-10-01", some "5.33"⟩]
      = directHistResult "DFF" "Federal Funds Rate" "Percent"
          [⟨"2025-10-01", some "5.33"⟩] := by
  constructor
  · exact (cache_neutrality _ true "DFF" "Federal Funds Rate" "Percent" _
      (fun d ttl h => by
        injection h with h1 h2
        exact (Option.some.inj h1).symm)).1
  · exact (cache_neutrality CacheBackend.erroring true "DFF"
      "Federal Funds Rate" "Percent" _
      (fun d ttl h => by cases h)).2.1 (Or.inr rfl)

/-- The latest-dated row returned by the freshness query is a row of
the table with the greatest date. -/
theorem latestByDate_spec : ∀ {rows : List QRow} {r : QRow},
    latestByDate rows = some r → r ∈ rows ∧ ∀ s ∈ rows, s.date ≤ r.date := by
  intro rows
  induction rows with
  | nil => intro r h; exact absurd h (by rw [latestByDate]; simp)
  | cons x rest ih =>
      intro r h
      rw [latestByDate] at h
      cases hrest : latestByDate rest with
      | none =>
          rw [hrest] at h
          simp only [Option.some.injEq] at h
          have hnil : rest = [] := by
            cases rest with
            | nil => rfl
            | cons y ys =>
                exact absurd hrest (by rw [latestByDate]; cases latestByDate ys <;> simp
                  )
          subst hnil
          subst h
          exact ⟨List.mem_cons_self x [], by
            intro s hs
            rcases List.mem_cons.mp hs with rfl | hs'
            · exact le_refl _
            · exact absurd hs' (List.not_mem_nil s)⟩
      | some m =>
          rw [hrest] at h
          simp only [Option.some.injEq] at h
          rcases ih hrest with ⟨hm, hub⟩
          by_cases hcmp : x.date < m.date
          · rw [if_pos hcmp] at h
            subst h
            refine ⟨List.mem_cons_of_mem x hm, ?_⟩
            intro s hs
            rcases List.mem_cons.mp hs with rfl | hs'
            · exact le_of_lt hcmp
            · exact hub s hs'
          · rw [if_neg hcmp] at h
            subst h
            refine ⟨List.mem_cons_self x rest, ?_⟩
            intro s hs
            rcases List.mem_cons.mp hs with rfl | hs'
            · exact le_refl _
            · exact le_trans (hub s hs') (not_lt.mp hcmp)

/-- C9 counterexample: with no rows for the series,
`check_metric_freshness` returns status `"error"` (with message
`"No data found"`, data_quality_service.py lines 57-62), not the
claimed status `"no_data"`. -/
theorem freshness_counterexample :
    (checkMetricFreshness 0 "DFF" []).status = "error"
    ∧ ("error" : String) ≠ "no_data" := by
  exact ⟨rfl, by decide⟩

/-- C9 (amended): `check_metric_freshness` returns status `"error"`
with message `"No data found"` when no rows exist for the series (not
`"no_data"`); otherwise it looks at the row with the greatest date and
returns status `"stale"` when that row's `created_at` is more than 7
days old, else `"fresh"`, in both cases together with the age of that
write in hours (rounded to 2 decimals). -/
theorem freshness_check (now : ℚ) (code : String) (rows : List QRow) :
    (rows = [] → checkMetricFreshness now code rows
      = ⟨code, "error", some "No data found", none, none, none⟩)
    ∧ (∀ r, latestByDate rows = some r →
        (r ∈ rows ∧ ∀ s ∈ rows, s.date ≤ r.date)
        ∧ (checkMetricFreshness now code rows).status
            = (if 7 < now - r.created_at then "stale" else "fresh")
        ∧ (checkMetricFreshness now code rows).age_hours
            = some (roundDp 2 ((now - r.created_at) * 24)))
    ∧ (rows ≠ [] → ∃ r, latestByDate rows = some r) := by
  refine ⟨?_, ?_, ?_⟩
  · intro h
    subst h
    rfl
  · intro r hr
    refine ⟨latestByDate_spec hr, ?_, ?_⟩
    · rw [checkMetricFreshness, hr]
      dsimp only
      by_cases hst : 7 < now - r.created_at
      · rw [if_pos hst, if_pos (decide_eq_true hst)]
      · rw [if_neg hst, if_neg (by simpa using hst)]
    · rw [checkMetricFreshness, hr]
  · intro h
    cases rows with
    | nil => exact absurd rfl h
    | cons x rest =>
        rw [latestByDate]
        cases latestByDate rest with
        | none => exact ⟨x, rfl⟩
        | some m => exact ⟨_, rfl⟩

/-- C9 witness: at day 100, a series whose latest-dated row was written
at day 96 is fresh with age 96 hours; the empty series yields the
error result. -/
theorem freshness_check_witness :
    checkMetricFreshness 100 "DFF" []
      = ⟨"DFF", "error", some "No data found", none, none, none⟩
    ∧ (checkMetricFreshness 100 "DFF" [⟨90, 91⟩, ⟨95, 96⟩]).status = "fresh"
    ∧ (checkMetricFreshness 100 "DFF" [⟨90, 91⟩, ⟨95, 96⟩]).age_hours
      = some 96 := by
  refine ⟨(freshness_check 100 "DFF" []).1 rfl, ?_, ?_⟩
  · have h := ((freshness_check 100 "DFF" [⟨90, 91⟩, ⟨95, 96⟩]).2.1
      ⟨95, 96⟩ rfl).2.1
    rw [h]
    norm_num
  · have h := ((freshness_check 100 "DFF" [⟨90, 91⟩, ⟨95, 96⟩]).2.1
      ⟨95, 96⟩ rfl).2.2
    rw [h]
    norm_num [roundDp, pyRound]

/-- C10: `analyze_metric` is total at its interface: whatever the four
sub-computations do, it returns a result dict that echoes `metric_code`,
`current_value` and `current_date`; when any sub-computation raises, the
result degrades to empty changes, empty significance, an empty alert
list and the context `"Analysis unavailable"`; when all four succeed it
assembles their results. -/
theorem analyze_metric_total {χ σ : Type} (code : String) (cv cd : ℚ)
    (changesR : Except String χ) (signifR : Except String σ)
    (alertsR : Except String (List String))
    (contextR : Except String String) :
    ((analyzeMetric code cv cd changesR signifR alertsR contextR).metric_code
        = code
      ∧ (analyzeMetric code cv cd changesR signifR alertsR
          contextR).current_value = cv
      ∧ (analyzeMetric code cv cd changesR signifR alertsR
          contextR).current_date = cd)
    ∧ (((∃ e, changesR = Except.error e) ∨ (∃ e, signifR = Except.error e)
        ∨ (∃ e, alertsR = Except.error e)
        ∨ (∃ e, contextR = Except.error e)) →
        analyzeMetric code cv cd changesR signifR alertsR contextR
          = ⟨code, cv, cd, none, none, [], "Analysis unavailable"⟩)
    ∧ (∀ c s a x, changesR = Except.ok c → signifR = Except.ok s →
        alertsR = Except.ok a → contextR = Except.ok x →
        analyzeMetric code cv cd changesR signifR alertsR contextR
          = ⟨code, cv, cd, some c, some s, a, x⟩) := by
  refine ⟨?_, ?_, ?_⟩
  · cases changesR <;> cases signifR <;> cases alertsR <;> cases contextR <;>
      exact ⟨rfl, rfl, rfl⟩
  · intro herr
    cases changesR <;> cases signifR <;> cases alertsR <;> cases contextR <;>
        first
      | rfl
      | (rcases herr with ⟨e, he⟩ | ⟨e, he⟩ | ⟨e, he⟩ | ⟨e, he⟩ <;> cases he)
  · intro c s a x hc hs ha hx
    subst hc
    subst hs
    subst ha
    subst hx
    rfl

/-- C10 witness: with the changes computation raising, the degraded
echoing dict is returned; with all four succeeding, the assembled dict
is returned. -/
theorem analyze_metric_total_witness :
    analyzeMetric (χ := Nat) (σ := Nat) "DFF" 1 2 (Except.error "boom")
        (Except.ok 0) (Except.ok []) (Except.ok "ctx")
      = ⟨"DFF", 1, 2, none, none, [], "Analysis unavailable"⟩
    ∧ analyzeMetric (χ := Nat) (σ := Nat) "DFF" 1 2 (Except.ok 3)
        (Except.ok 0) (Except.ok ["a"]) (Except.ok "ctx")
      = ⟨"DFF", 1, 2, some 3, some 0, ["a"], "ctx"⟩ := by
  constructor
  · exact (analyze_metric_total "DFF" 1 2 (Except.error "boom") (Except.ok 0)
      (Except.ok []) (Except.ok "ctx")).2.1 (Or.inl ⟨"boom", rfl⟩)
  · exact (analyze_metric_total "DFF" 1 2 (Except.ok 3) (Except.ok 0)
      (Except.ok ["a"]) (Except.ok "ctx")).2.2 3 0 ["a"] "ctx" rfl rfl rfl rfl

end EconDash
